import Mathlib

/-!
Verification of the zingtouch gesture engine (bundle.js v1.0.5 modules 5-17,
src/core/State.js, src/core/classes/Point2D.js) against its specification.

Shallow embedding conventions:
* JS numbers are modelled by a linear ordered field.  Code that is exact on
  rationals is stated over an arbitrary such field and evaluated at Rat;
  statements about Math.atan2 are made at Real via Complex.arg.
* Math.sqrt and Math.atan2 are passed as explicit function parameters
  (sqrtF, atan2F) wherever a gesture merely pipes their output around;
  theorems quantify over them, witnesses instantiate them.
* Math.round is the Mathlib round function (floor of x + 1/2), which agrees
  with the JS semantics of rounding half toward positive infinity.
* The JS remainder operator is jsMod (truncated division remainder).
* JS truthiness of a possibly-missing numeric field is jsTruthy: a missing
  key (none) and the number 0 are falsy, every other number is truthy.
* Mutation is modelled by returning updated state; fallible paths return
  Option.
-/

/-- Normalized phase of a pointer event.  The source strings are
"start", "move" and "end"; the last is named ended because end is a
reserved word in Lean. -/
inductive Phase
  | start
  | move
  | ended
deriving DecidableEq

/-- Point2D from src/core/classes/Point2D.js: an x and a y coordinate. -/
structure Point2D (α : Type) where
  x : α
  y : α
deriving DecidableEq

section Util

variable {α : Type} [LinearOrderedField α]

/-- Point2D.add: componentwise sum, returning a new point (the source
constructs a fresh Point2D and leaves both operands untouched). -/
def Point2D.add (p q : Point2D α) : Point2D α :=
  ⟨p.x + q.x, p.y + q.y⟩

/-- Point2D.subtract: componentwise difference (this - point), returning a
new point. -/
def Point2D.subtract (p q : Point2D α) : Point2D α :=
  ⟨p.x - q.x, p.y - q.y⟩

/-- Point2D.midpointTo from src/core/classes/Point2D.js. -/
def Point2D.midpointTo (p q : Point2D α) : Point2D α :=
  ⟨(p.x + q.x) / 2, (p.y + q.y) / 2⟩

/-- Point2D.angleTo from src/core/classes/Point2D.js: the raw
Math.atan2(point.y - this.y, point.x - this.x), with atan2 passed in as
atan2F (first argument the y displacement, second the x displacement). -/
def Point2D.angleTo (atan2F : α → α → α) (p q : Point2D α) : α :=
  atan2F (q.y - p.y) (q.x - p.x)

/-- Math.round(100 * v) / 100, the two-decimal rounding used by
util.distanceBetweenTwoPoints (bundle module 5).  Mathlib round is
floor (x + 1/2), matching Math.round. -/
def round2 [FloorRing α] (v : α) : α :=
  (round (100 * v) : ℤ) / 100

/-- util.distanceBetweenTwoPoints(x1, x2, y1, y2) from bundle module 5:
sqrt((x2-x1)^2 + (y2-y1)^2) rounded to two decimals.  Math.sqrt is the
parameter sqrtF.  Note the argument order: the first two arguments are the
two x coordinates, the last two the two y coordinates. -/
def distanceBetweenTwoPoints [FloorRing α] (sqrtF : α → α) (x1 x2 y1 y2 : α) : α :=
  round2 (sqrtF ((x2 - x1) * (x2 - x1) + (y2 - y1) * (y2 - y1)))

/-- util.isWithin(x, y, x2, y2, tolerance) from bundle module 5:
both coordinate gaps are at most the tolerance. -/
def isWithin (x y x2 y2 tolerance : α) : Prop :=
  |y - y2| ≤ tolerance ∧ |x - x2| ≤ tolerance

instance (x y x2 y2 tolerance : α) : Decidable (isWithin x y x2 y2 tolerance) :=
  inferInstanceAs (Decidable (_ ∧ _))

/-- util.getMidpoint(x1, x2, y1, y2) from bundle module 5. -/
def getMidpoint (x1 x2 y1 y2 : α) : Point2D α :=
  ⟨(x1 + x2) / 2, (y1 + y2) / 2⟩

/-- util.getAngle(x1, y1, x2, y2) from bundle module 5: with
o = atan2(y2 - y1, x2 - x1) * 180 / pi, returns 360 - (o < 0 ? 360 + o : o).
Math.atan2 and Math.PI are the parameters atan2F and piv. -/
def getAngle (atan2F : α → α → α) (piv : α) (x1 y1 x2 y2 : α) : α :=
  let o := atan2F (y2 - y1) (x2 - x1) * (180 / piv)
  360 - (if o < 0 then 360 + o else o)

/-- Truncation toward zero, the rounding JS division uses for the
remainder operator. -/
def rtz [FloorRing α] (v : α) : ℤ :=
  if 0 ≤ v then ⌊v⌋ else ⌈v⌉

/-- The JS remainder a % b: a - b * trunc(a / b), so the result carries the
sign of the dividend. -/
def jsMod [FloorRing α] (a b : α) : α :=
  a - b * rtz (a / b)

/-- util.getAngularDistance(start, end) from bundle module 5: with
d = (end - start) % 360, sign s = (d < 0 ? 1 : -1) and m = |d|, returns
s * (360 - m) when m > 180 and s * m otherwise. -/
def getAngularDistance [FloorRing α] (a b : α) : α :=
  let d := jsMod (b - a) 360
  let s : α := if d < 0 then 1 else -1
  let m := |d|
  if m > 180 then s * (360 - m) else s * m

/-- util.getVelocity(startX, startY, startTime, endX, endY, endTime) from
bundle module 5: the rounded distance between the endpoints divided by the
elapsed time. -/
def getVelocity [FloorRing α] (sqrtF : α → α) (startX startY startTime endX endY endTime : α) : α :=
  distanceBetweenTwoPoints sqrtF startX endX startY endY / (endTime - startTime)

/-- JS truthiness of a possibly-absent numeric property: absent (none) and
zero are falsy. -/
def jsTruthy [DecidableEq α] : Option α → Bool
  | none => false
  | some v => decide (v ≠ 0)

/-- Number.MAX_VALUE, the sentinel Tap.end starts its minimum-search from:
(2^53 - 1) * 2^971. -/
def jsMaxValue : α :=
  (2 ^ 53 - 1) * 2 ^ 971

end Util

/-! ## Dispatch resolver (bundle modules 5, 6 and 8) -/

/-- One (binding, result) candidate as produced by the interpreter (bundle
module 8): the gesture id of the binding (binding.gesture.getId()), the
bound element (an abstract element identifier), and an opaque result
payload.  The candidate list is in binding-registration order: the bindings
array is built by push, and both retrieveBindingsByInitialPos and the
reduce of module 8 preserve its order. -/
structure DispatchCandidate where
  gestureId : ℕ
  element : ℕ
  payload : ℕ
deriving DecidableEq

/-- util.getPathIndex(path, element) from bundle module 5: starts at
path.length and overwrites it with the index of every occurrence of the
element, so it returns the index of the element on the path (path.length
when absent).  getPropagationPath lists elements from the event target
outward, so a smaller index means a deeper element. -/
def getPathIndex (path : List ℕ) (element : ℕ) : ℕ :=
  path.enum.foldl (fun n p => if p.2 = element then p.1 else n) path.length

/-- One step of the arbiter fold over candidates (bundle module 6): a
candidate either claims an unclaimed gesture id, or replaces the current
holder exactly when its element sits at a strictly smaller path index. -/
def arbiterStep (path : List ℕ) (u : ℕ → Option DispatchCandidate)
    (c : DispatchCandidate) : ℕ → Option DispatchCandidate :=
  fun g =>
    if g = c.gestureId then
      match u c.gestureId with
      | none => some c
      | some w =>
        if getPathIndex path c.element < getPathIndex path w.element then some c else some w
    else u g

/-- The arbiter of bundle module 6: folds the candidate list into a map
from gesture id to the single forwarded winner (the object u in the
source; Object.keys(u) then dispatches exactly one entry per key). -/
def arbiterResolve (path : List ℕ) (cands : List DispatchCandidate) :
    ℕ → Option DispatchCandidate :=
  cands.foldl (arbiterStep path) (fun _ => none)

/-- Modelled from the spec (section 4.6): the winner for a gesture kind is
the first candidate of that kind attaining the minimal containment depth;
on ties the earlier (first-registered) candidate is kept. -/
def firstMinBy (f : DispatchCandidate → ℕ) :
    List DispatchCandidate → Option DispatchCandidate
  | [] => none
  | c :: cs =>
    match firstMinBy f cs with
    | none => some c
    | some w => if f w < f c then some w else some c

/-- Combine an incumbent winner with the winner of a later batch: the later
one is taken only when strictly better. -/
def mergeMin (f : DispatchCandidate → ℕ) :
    Option DispatchCandidate → Option DispatchCandidate → Option DispatchCandidate
  | none, v => v
  | some w, none => some w
  | some w, some v => if f v < f w then some v else some w

theorem firstMinBy_cons (f : DispatchCandidate → ℕ) (c : DispatchCandidate)
    (cs : List DispatchCandidate) :
    firstMinBy f (c :: cs) = mergeMin f (some c) (firstMinBy f cs) := by
  cases h : firstMinBy f cs <;> simp [firstMinBy, h, mergeMin]

theorem mergeMin_assoc (f : DispatchCandidate → ℕ)
    (a b c : Option DispatchCandidate) :
    mergeMin f (mergeMin f a b) c = mergeMin f a (mergeMin f b c) := by
  cases a with
  | none => rfl
  | some x =>
    cases b with
    | none => rfl
    | some y =>
      cases c with
      | none =>
        by_cases h1 : f y < f x <;> simp [mergeMin, h1]
      | some z =>
        by_cases h1 : f y < f x <;> by_cases h2 : f z < f y <;>
          by_cases h3 : f z < f x <;>
          simp [mergeMin, h1, h2, h3] <;> omega

theorem firstMinBy_eq_none (f : DispatchCandidate → ℕ)
    (l : List DispatchCandidate) :
    firstMinBy f l = none ↔ l = [] := by
  cases l with
  | nil => simp [firstMinBy]
  | cons c cs =>
    rw [firstMinBy_cons]
    constructor
    · intro h
      exfalso
      cases hcs : firstMinBy f cs with
      | none => rw [hcs] at h; simp [mergeMin] at h
      | some v =>
        rw [hcs] at h
        by_cases hlt : f v < f c <;> simp [mergeMin, hlt] at h
    · intro h
      simp at h

theorem arbiterFold_spec (path : List ℕ) (cands : List DispatchCandidate)
    (u : ℕ → Option DispatchCandidate) (g : ℕ) :
    (cands.foldl (arbiterStep path) u) g =
      mergeMin (fun c => getPathIndex path c.element) (u g)
        (firstMinBy (fun c => getPathIndex path c.element)
          (cands.filter (fun c => decide (c.gestureId = g)))) := by
  induction cands generalizing u with
  | nil =>
    cases h : u g <;> simp [firstMinBy, mergeMin, h]
  | cons c cs ih =>
    simp only [List.foldl_cons]
    rw [ih]
    by_cases hc : c.gestureId = g
    · subst hc
      have hstep : (arbiterStep path u c) c.gestureId =
          mergeMin (fun d => getPathIndex path d.element) (u c.gestureId) (some c) := by
        cases h : u c.gestureId <;> simp [arbiterStep, h, mergeMin]
      have hfil : (c :: cs).filter (fun d => decide (d.gestureId = c.gestureId)) =
          c :: cs.filter (fun d => decide (d.gestureId = c.gestureId)) := by
        simp [List.filter_cons]
      rw [hstep, mergeMin_assoc, hfil, firstMinBy_cons]
    · have hgc : ¬(g = c.gestureId) := fun h => hc h.symm
      have hstep : (arbiterStep path u c) g = u g := by
        simp [arbiterStep, hgc]
      have hfil : (c :: cs).filter (fun d => decide (d.gestureId = g)) =
          cs.filter (fun d => decide (d.gestureId = g)) := by
        simp [List.filter_cons, hc]
      rw [hstep, hfil]

theorem firstMinBy_mem_min (f : DispatchCandidate → ℕ)
    (l : List DispatchCandidate) :
    ∀ w, firstMinBy f l = some w → w ∈ l ∧ ∀ c ∈ l, f w ≤ f c := by
  induction l with
  | nil => intro w h; simp [firstMinBy] at h
  | cons c cs ih =>
    intro w h
    rw [firstMinBy_cons] at h
    cases hcs : firstMinBy f cs with
    | none =>
      rw [hcs] at h
      simp only [mergeMin] at h
      obtain rfl : c = w := by injection h
      have hnil : cs = [] := (firstMinBy_eq_none f cs).mp hcs
      subst hnil
      exact ⟨by simp, by simp⟩
    | some v =>
      rw [hcs] at h
      obtain ⟨hv, hmin⟩ := ih v hcs
      simp only [mergeMin] at h
      by_cases hlt : f v < f c
      · rw [if_pos hlt] at h
        obtain rfl : v = w := by injection h
        refine ⟨List.mem_cons_of_mem _ hv, ?_⟩
        intro d hd
        rcases List.mem_cons.mp hd with rfl | hd
        · omega
        · exact hmin d hd
      · rw [if_neg hlt] at h
        obtain rfl : c = w := by injection h
        refine ⟨List.mem_cons_self _ _, ?_⟩
        intro d hd
        rcases List.mem_cons.mp hd with rfl | hd
        · exact le_refl _
        · exact le_trans (by omega) (hmin d hd)

theorem firstMinBy_first (f : DispatchCandidate → ℕ)
    (l : List DispatchCandidate) :
    ∀ w, firstMinBy f l = some w → ∃ l₁ l₂, l = l₁ ++ w :: l₂ ∧ ∀ c ∈ l₁, f w < f c := by
  induction l with
  | nil => intro w h; simp [firstMinBy] at h
  | cons c cs ih =>
    intro w h
    rw [firstMinBy_cons] at h
    cases hcs : firstMinBy f cs with
    | none =>
      rw [hcs] at h
      simp only [mergeMin] at h
      obtain rfl : c = w := by injection h
      exact ⟨[], cs, rfl, by simp⟩
    | some v =>
      rw [hcs] at h
      simp only [mergeMin] at h
      by_cases hlt : f v < f c
      · rw [if_pos hlt] at h
        obtain rfl : v = w := by injection h
        obtain ⟨l₁, l₂, hsplit, hone⟩ := ih v hcs
        refine ⟨c :: l₁, l₂, by simp [hsplit], ?_⟩
        intro d hd
        rcases List.mem_cons.mp hd with rfl | hd
        · omega
        · exact hone d hd
      · rw [if_neg hlt] at h
        obtain rfl : c = w := by injection h
        exact ⟨[], cs, rfl, by simp⟩

/-- C1: for every propagation path, candidate list and gesture kind, the
arbiter forwards exactly one winner per gesture kind: its map at a gesture
id equals the first candidate of that id attaining the minimal path index
(innermost element, since the propagation path lists elements from the
target outward) with first-registered candidates winning ties, the winner
is one of the candidates of that id and its depth is minimal among them,
it is preceded only by strictly shallower candidates of the same id, and a
winner exists if and only if some candidate of that id exists. -/
theorem arbiter_one_innermost_winner (path : List ℕ)
    (cands : List DispatchCandidate) (g : ℕ) :
    arbiterResolve path cands g =
        firstMinBy (fun c => getPathIndex path c.element)
          (cands.filter (fun c => decide (c.gestureId = g)))
      ∧ (∀ w, firstMinBy (fun c => getPathIndex path c.element)
            (cands.filter (fun c => decide (c.gestureId = g))) = some w →
          (w ∈ cands.filter (fun c => decide (c.gestureId = g))
            ∧ (∀ c ∈ cands.filter (fun c => decide (c.gestureId = g)),
                getPathIndex path w.element ≤ getPathIndex path c.element)
            ∧ ∃ l₁ l₂, cands.filter (fun c => decide (c.gestureId = g)) = l₁ ++ w :: l₂
                ∧ ∀ c ∈ l₁, getPathIndex path w.element < getPathIndex path c.element))
      ∧ (firstMinBy (fun c => getPathIndex path c.element)
            (cands.filter (fun c => decide (c.gestureId = g))) = none
          ↔ cands.filter (fun c => decide (c.gestureId = g)) = []) := by
  refine ⟨?_, ?_, firstMinBy_eq_none _ _⟩
  · have h := arbiterFold_spec path cands (fun _ => none) g
    simpa [arbiterResolve, mergeMin] using h
  · intro w hw
    obtain ⟨hmem, hmin⟩ := firstMinBy_mem_min _ _ _ hw
    exact ⟨hmem, hmin, firstMinBy_first _ _ _ hw⟩

/-- C10: for every pair of Point2D values, subtract undoes add
componentwise over exact arithmetic; both operations construct fresh
points (the embedding is pure, mirroring the source constructors), so
neither mutates an operand. -/
theorem point2d_subtract_add (p q : Point2D ℚ) :
    (p.add q).subtract q = p := by
  cases p
  cases q
  simp [Point2D.add, Point2D.subtract]

/-! ## Angles at Real: Math.atan2 modelled by Complex.arg -/

/-- Math.atan2(y, x), realized as the argument of the complex number
x + y i; this has the atan2 range (-pi, pi] and the atan2 special values
on the axes. -/
noncomputable def jsAtan2 (y x : ℝ) : ℝ :=
  Complex.arg ⟨x, y⟩

theorem jsAtan2_mem (y x : ℝ) :
    -Real.pi < jsAtan2 y x ∧ jsAtan2 y x ≤ Real.pi :=
  ⟨Complex.neg_pi_lt_arg _, Complex.arg_le_pi _⟩

theorem jsAtan2_zero_nonneg (x : ℝ) (hx : 0 ≤ x) : jsAtan2 0 x = 0 := by
  have hz : (⟨x, 0⟩ : ℂ) = ((x : ℝ) : ℂ) := by
    apply Complex.ext <;> simp
  rw [jsAtan2, hz]
  exact Complex.arg_ofReal_of_nonneg hx

theorem getAngleR_bounds (x1 y1 x2 y2 : ℝ) :
    0 < getAngle jsAtan2 Real.pi x1 y1 x2 y2
      ∧ getAngle jsAtan2 Real.pi x1 y1 x2 y2 ≤ 360 := by
  obtain ⟨hlo, hhi⟩ := jsAtan2_mem (y2 - y1) (x2 - x1)
  have hpi := Real.pi_pos
  have hc : (0:ℝ) < 180 / Real.pi := by positivity
  have ho_hi : jsAtan2 (y2 - y1) (x2 - x1) * (180 / Real.pi) ≤ 180 := by
    have h := mul_le_mul_of_nonneg_right hhi hc.le
    have hcancel : Real.pi * (180 / Real.pi) = 180 := by
      field_simp
    linarith
  have ho_lo : (-180:ℝ) < jsAtan2 (y2 - y1) (x2 - x1) * (180 / Real.pi) := by
    have h := mul_lt_mul_of_pos_right hlo hc
    have hcancel : -Real.pi * (180 / Real.pi) = -180 := by
      field_simp
      ring
    linarith
  simp only [getAngle]
  split_ifs with h <;> constructor <;> linarith

theorem getAngleR_rightward (x y d : ℝ) (hd : 0 < d) :
    getAngle jsAtan2 Real.pi x y (x + d) y = 360 := by
  have hyy : y - y = 0 := by ring
  have hxx : x + d - x = d := by ring
  have h0 : jsAtan2 (y - y) (x + d - x) = 0 := by
    rw [hyy, hxx]
    exact jsAtan2_zero_nonneg d hd.le
  simp only [getAngle, h0]
  norm_num

/-- C5 (amended): Point2D.angleTo returns the raw atan2 value in radians,
lying in (-pi, pi]; util.getAngle returns degrees in the half-open-above
interval (0, 360], computed as 360 - (o < 0 ? 360 + o : o) with
o = atan2(dy, dx) * 180 / pi; and a purely rightward displacement
(dy = 0, dx > 0) yields 360 degrees (the conventional 0 direction is
reported as 360, never 0). -/
theorem angle_operation_ranges :
    (∀ p q : Point2D ℝ,
        -Real.pi < Point2D.angleTo jsAtan2 p q
          ∧ Point2D.angleTo jsAtan2 p q ≤ Real.pi)
    ∧ (∀ x1 y1 x2 y2 : ℝ,
        0 < getAngle jsAtan2 Real.pi x1 y1 x2 y2
          ∧ getAngle jsAtan2 Real.pi x1 y1 x2 y2 ≤ 360)
    ∧ (∀ x y d : ℝ, 0 < d → getAngle jsAtan2 Real.pi x y (x + d) y = 360) :=
  ⟨fun p q => jsAtan2_mem (q.y - p.y) (q.x - p.x),
   getAngleR_bounds,
   getAngleR_rightward⟩

/-- C5 counterexample: the direction from (0, 0) to (5, 0) - a purely
rightward displacement - is reported by util.getAngle as 360 degrees,
which is not the 0 degrees the claim requires and lies outside the
claimed interval that excludes 360. -/
theorem getAngle_rightward_360 :
    getAngle jsAtan2 Real.pi 0 0 5 0 = 360 ∧ (360 : ℝ) ≠ 0 := by
  constructor
  · have h := getAngleR_rightward 0 0 5 (by norm_num)
    norm_num at h
    exact h
  · norm_num

/-- C5 witness: the amended rightward clause applied at the concrete
displacement (0,0) to (0+5,0). -/
theorem angle_operation_ranges_witness :
    (0 : ℝ) < 5 ∧ getAngle jsAtan2 Real.pi 0 0 (0 + 5) 0 = 360 :=
  ⟨by norm_num, angle_operation_ranges.2.2 0 0 5 (by norm_num)⟩

/-! ## Pan (bundle module 10) -/

/-- Per-input Pan scratch state (the progress object): the active flag set
by Pan.start and cleared by Pan.end (JS truthiness of the possibly-absent
flag is folded into the Bool), and the point at which per-input data was
last emitted. -/
structure PanProgress (α : Type) where
  active : Bool
  lastEmitted : Point2D α
deriving DecidableEq

/-- The slice of an Input that Pan.move reads: initial and current event
positions plus the Pan scratch state. -/
structure PanInput (α : Type) where
  initial : Point2D α
  current : Point2D α
  progress : PanProgress α
deriving DecidableEq

/-- Per-input Pan payload assembled by the inner helper r of Pan.move. -/
structure PanData (α : Type) where
  distanceFromOrigin : α
  directionFromOrigin : α
  currentDirection : α
  change : Point2D α
deriving DecidableEq

/-- The object Pan.move returns whenever the input count matches: a data
array with one slot per input; slots the forEach never assigns are holes
in the JS array and none here. -/
structure PanOutput (α : Type) where
  data : List (Option (PanData α))
deriving DecidableEq

/-- Pan configuration after constructor defaulting (numInputs 1,
threshold 1). -/
structure PanCfg (α : Type) where
  numInputs : ℕ
  threshold : α
deriving DecidableEq

section Pan

variable {α : Type} [LinearOrderedField α] [FloorRing α]

/-- The helper r inside Pan.move: distanceFromOrigin and
directionFromOrigin from the initial to the current position,
currentDirection from the last emitted point to the current position,
change the componentwise difference current minus lastEmitted; all
computed before lastEmitted is advanced. -/
def panDataOf (sqrtF : α → α) (atan2F : α → α → α) (piv : α)
    (inp : PanInput α) : PanData α :=
  { distanceFromOrigin :=
      distanceBetweenTwoPoints sqrtF inp.initial.x inp.current.x
        inp.initial.y inp.current.y
    directionFromOrigin :=
      getAngle atan2F piv inp.initial.x inp.initial.y
        inp.current.x inp.current.y
    currentDirection :=
      getAngle atan2F piv inp.progress.lastEmitted.x inp.progress.lastEmitted.y
        inp.current.x inp.current.y
    change :=
      ⟨inp.current.x - inp.progress.lastEmitted.x,
       inp.current.y - inp.progress.lastEmitted.y⟩ }

/-- The quantity Pan.move gates on.  The source calls
distanceBetweenTwoPoints(lastEmitted.x, lastEmitted.y, current.x,
current.y) whose parameter order is (x1, x2, y1, y2), so lastEmitted.y
lands in the second x slot and current.x in the first y slot: the gate is
the rounded square root of (lastEmitted.y - lastEmitted.x)^2 +
(current.y - current.x)^2, not the displacement between the points. -/
def panGateDistance (sqrtF : α → α) (inp : PanInput α) : α :=
  distanceBetweenTwoPoints sqrtF inp.progress.lastEmitted.x
    inp.progress.lastEmitted.y inp.current.x inp.current.y

/-- Per-input body of the forEach in Pan.move: when the progress is
active and the gate distance reaches the threshold, record the payload and
advance lastEmitted to the current position; otherwise leave both the data
slot and the progress untouched. -/
def panMoveStep (sqrtF : α → α) (atan2F : α → α → α) (piv : α)
    (cfg : PanCfg α) (inp : PanInput α) : Option (PanData α) × PanInput α :=
  if inp.progress.active = true ∧ panGateDistance sqrtF inp ≥ cfg.threshold then
    (some (panDataOf sqrtF atan2F piv inp),
     { inp with progress := { inp.progress with lastEmitted := inp.current } })
  else (none, inp)

/-- Pan.move (bundle module 10): null when the input count differs from
numInputs, otherwise an output object (always truthy, hence always
forwarded as a candidate by module 8) whose data array is filled per input
by panMoveStep; the second component is the updated inputs, since the
forEach mutates each progress in place. -/
def panMove (sqrtF : α → α) (atan2F : α → α → α) (piv : α)
    (cfg : PanCfg α) (inputs : List (PanInput α)) :
    Option (PanOutput α) × List (PanInput α) :=
  if cfg.numInputs = inputs.length then
    (some ⟨(inputs.map (panMoveStep sqrtF atan2F piv cfg)).map Prod.fst⟩,
     (inputs.map (panMoveStep sqrtF atan2F piv cfg)).map Prod.snd)
  else (none, inputs)

/-- C2 (amended): on a move update whose input count matches numInputs,
Pan.move always returns a result object - one forwarded emission per
update even when every slot stays empty; an input contributes a data slot
exactly when its progress is active and the gate quantity of
panGateDistance (which, due to the argument order in the source call, is
not the displacement from the last emitted point) is at or above the
threshold; a contributing slot carries change equal to the componentwise
difference between the current and the last emitted point and the
progress advances lastEmitted to the current point, while a
non-contributing input keeps its progress unchanged. -/
theorem pan_move_always_emits (sqrtF : α → α) (atan2F : α → α → α)
    (piv : α) (cfg : PanCfg α) (inputs : List (PanInput α))
    (h : cfg.numInputs = inputs.length) :
    (panMove sqrtF atan2F piv cfg inputs).1 =
        some ⟨inputs.map (fun inp =>
          if inp.progress.active = true ∧ panGateDistance sqrtF inp ≥ cfg.threshold
          then some (panDataOf sqrtF atan2F piv inp) else none)⟩
      ∧ (panMove sqrtF atan2F piv cfg inputs).2 =
          inputs.map (fun inp =>
            if inp.progress.active = true ∧ panGateDistance sqrtF inp ≥ cfg.threshold
            then { inp with progress := { inp.progress with lastEmitted := inp.current } }
            else inp)
      ∧ ∀ inp : PanInput α, (panDataOf sqrtF atan2F piv inp).change =
          ⟨inp.current.x - inp.progress.lastEmitted.x,
           inp.current.y - inp.progress.lastEmitted.y⟩ := by
  have hfst : ∀ inp : PanInput α,
      (panMoveStep sqrtF atan2F piv cfg inp).1 =
        (if inp.progress.active = true ∧ panGateDistance sqrtF inp ≥ cfg.threshold
         then some (panDataOf sqrtF atan2F piv inp) else none) := by
    intro inp
    unfold panMoveStep
    split <;> rfl
  have hsnd : ∀ inp : PanInput α,
      (panMoveStep sqrtF atan2F piv cfg inp).2 =
        (if inp.progress.active = true ∧ panGateDistance sqrtF inp ≥ cfg.threshold
         then { inp with progress := { inp.progress with lastEmitted := inp.current } }
         else inp) := by
    intro inp
    unfold panMoveStep
    split <;> rfl
  refine ⟨?_, ?_, fun inp => rfl⟩ <;>
    simp only [panMove, if_pos h, List.map_map, Function.comp_def, hfst, hsnd]

end Pan

/-- The instantiation of Math.sqrt used in concrete evaluations: a finite
table, exact on the perfect squares that occur in them (Math.sqrt is also
exact on those inputs). -/
def sqrtTab (q : ℚ) : ℚ :=
  if q = 0 then 0
  else if q = 1 then 1
  else if q = 4 then 2
  else if q = 25 then 5
  else if q = 100 then 10
  else if q = 2500 then 50
  else 0

/-- C2 counterexample, first input: active, initial, current and
lastEmitted all at the origin (no movement at all). -/
def panInputStill : PanInput ℚ :=
  ⟨⟨0, 0⟩, ⟨0, 0⟩, ⟨true, ⟨0, 0⟩⟩⟩

/-- C2 counterexample, second input: active, last emitted at (3, 3),
current at (4, 4): the true displacement is the square root of 2, at or
above the threshold 1, but the gate quantity of the source is 0. -/
def panInputDiag : PanInput ℚ :=
  ⟨⟨3, 3⟩, ⟨4, 4⟩, ⟨true, ⟨3, 3⟩⟩⟩

/-- The default Pan configuration: numInputs 1, threshold 1. -/
def panCfgDefault : PanCfg ℚ :=
  ⟨1, 1⟩

/-- C2 counterexample: with the motionless input (gate distance 0, below
the threshold 1) Pan.move still returns a result object, so an emission is
forwarded where the claim requires none; and with the diagonal input,
whose squared displacement 2 from the last emitted point is at or above
the squared threshold 1, the data array stays empty, so no per-input
change is emitted where the claim requires one.  Math.sqrt is instantiated
with sqrtTab, exact on the perfect squares that occur here. -/
theorem pan_move_claim_fails :
    (panMove sqrtTab (fun _ _ => 0) 1 panCfgDefault [panInputStill]).1 ≠ none
      ∧ panGateDistance sqrtTab panInputStill < panCfgDefault.threshold
      ∧ (panMove sqrtTab (fun _ _ => 0) 1 panCfgDefault [panInputDiag]).1 =
          some ⟨[none]⟩
      ∧ panCfgDefault.threshold * panCfgDefault.threshold ≤
          (panInputDiag.current.x - panInputDiag.progress.lastEmitted.x) *
              (panInputDiag.current.x - panInputDiag.progress.lastEmitted.x)
            + (panInputDiag.current.y - panInputDiag.progress.lastEmitted.y) *
              (panInputDiag.current.y - panInputDiag.progress.lastEmitted.y) := by
  refine ⟨?_, ?_, ?_, ?_⟩ <;>
      norm_num [panMove, panMoveStep, panGateDistance, panDataOf,
        distanceBetweenTwoPoints, round2, round_eq, sqrtTab, panCfgDefault,
        panInputStill, panInputDiag]
  simp

/-- C2 witness input: active, moved from the origin to (5, 0) with the
last emitted point at the origin; the gate fires. -/
def panInputRight : PanInput ℚ :=
  ⟨⟨0, 0⟩, ⟨5, 0⟩, ⟨true, ⟨0, 0⟩⟩⟩

/-- C2 witness: the amended characterization applied to the single
rightward input under the default configuration. -/
theorem pan_move_always_emits_witness :
    panCfgDefault.numInputs = [panInputRight].length
      ∧ ((panMove sqrtTab (fun _ _ => 0) 1 panCfgDefault [panInputRight]).1 =
          some ⟨[panInputRight].map (fun inp =>
            if inp.progress.active = true
                ∧ panGateDistance sqrtTab inp ≥ panCfgDefault.threshold
            then some (panDataOf sqrtTab (fun _ _ => 0) 1 inp) else none)⟩
        ∧ (panMove sqrtTab (fun _ _ => 0) 1 panCfgDefault [panInputRight]).2 =
            [panInputRight].map (fun inp =>
              if inp.progress.active = true
                  ∧ panGateDistance sqrtTab inp ≥ panCfgDefault.threshold
              then { inp with progress :=
                      { inp.progress with lastEmitted := inp.current } }
              else inp)
        ∧ ∀ inp : PanInput ℚ, (panDataOf sqrtTab (fun _ _ => 0) 1 inp).change =
            ⟨inp.current.x - inp.progress.lastEmitted.x,
             inp.current.y - inp.progress.lastEmitted.y⟩) :=
  ⟨rfl,
   pan_move_always_emits sqrtTab (fun _ _ => 0) 1 panCfgDefault [panInputRight]
     rfl⟩

/-! ## Swipe (bundle module 13) -/

/-- One recorded move sample of the Swipe scratch state: the wall-clock
time of the move update and the position of the input. -/
structure SwipeSample (α : Type) where
  time : α
  x : α
  y : α
deriving DecidableEq

/-- Per-input Swipe payload computed by Swipe.end. -/
structure SwipeData (α : Type) where
  velocity : α
  distance : α
  duration : α
  currentDirection : α
deriving DecidableEq

/-- The slice of an Input that Swipe reads: the phase and current position
of the input plus the recorded moves of its scratch state.  A progress
object whose moves key is still missing behaves exactly like an empty
list: both fail the more-than-two check in Swipe.end and both are
initialized before the push in Swipe.move. -/
structure SwipeInput (α : Type) where
  phase : Phase
  current : Point2D α
  moves : List (SwipeSample α)
deriving DecidableEq

/-- The object Swipe.end returns on success (holes of the JS data array
are none; trailing holes do not extend it). -/
structure SwipeOutput (α : Type) where
  data : List (Option (SwipeData α))
deriving DecidableEq

/-- Swipe configuration after constructor defaulting: numInputs 1,
maxRestTime 100, escapeVelocity 0.2, timeDistortion 100,
maxProgressStack 10. -/
structure SwipeCfg (α : Type) where
  numInputs : ℕ
  maxRestTime : α
  escapeVelocity : α
  timeDistortion : α
  maxProgressStack : ℕ
deriving DecidableEq

/-- The default Swipe configuration. -/
def defaultSwipeCfg : SwipeCfg ℚ :=
  ⟨1, 100, 2 / 10, 100, 10⟩

/-- In Swipe.move the guard before dropping the oldest sample reads
progress.length - a property never assigned on the progress object, whose
intended target was progress.moves.length - so the JS comparison
(undefined > maxProgressStack) evaluates to false for every bound. -/
def jsUndefinedGtNum (_bound : ℕ) : Bool :=
  false

section Swipe

variable {α : Type} [LinearOrderedField α] [FloorRing α]

/-- Per-input body of Swipe.move: push the sample {time, x, y}; then shift
the oldest sample off only if the (always false) undefined guard held. -/
def swipeMovePush (cfg : SwipeCfg α) (now : α) (inp : SwipeInput α) : SwipeInput α :=
  let ms := inp.moves ++ [⟨now, inp.current.x, inp.current.y⟩]
  { inp with moves := if jsUndefinedGtNum cfg.maxProgressStack then ms.drop 1 else ms }

/-- Swipe.move (bundle module 13): when the input count matches numInputs,
record one sample per input; the hook always returns null, so only the
scratch state changes. -/
def swipeMove (cfg : SwipeCfg α) (now : α) (inputs : List (SwipeInput α)) :
    List (SwipeInput α) :=
  if cfg.numInputs = inputs.length then inputs.map (swipeMovePush cfg now) else inputs

/-- Outcome of processing one input inside the end loop of Swipe.end. -/
inductive SwipeStepRes (α : Type)
  | skip
  | abort
  | data (d : SwipeData α)
deriving DecidableEq

/-- The per-input body of the end loop of Swipe.end, entered when the
input has more than two recorded samples: pop the final sample, reject the
whole gesture when the wall-clock gap since that sample exceeds
maxRestTime, search the remaining samples backwards for one with a
distinct timestamp and, when none is found, pop the most recent remaining
sample with its time shifted forward by timeDistortion; finally compute
the payload from the chosen pair of samples.  With fewer than three
samples (or a missing moves array) the slot is skipped.  The unreachable
defaults stand for list accesses the more-than-two guard ensures. -/
def swipeProcess (sqrtF : α → α) (atan2F : α → α → α) (piv : α)
    (cfg : SwipeCfg α) (now : α) (inp : SwipeInput α) : SwipeStepRes α :=
  if inp.moves.length > 2 then
    match inp.moves.getLast? with
    | none => SwipeStepRes.skip
    | some last =>
      if now - last.time > cfg.maxRestTime then SwipeStepRes.abort
      else
        let rest := inp.moves.dropLast
        let u :=
          match rest.reverse.find? (fun s => decide (s.time ≠ last.time)) with
          | some u => u
          | none =>
            match rest.getLast? with
            | some u => { u with time := u.time + cfg.timeDistortion }
            | none => ⟨0, 0, 0⟩
        SwipeStepRes.data
          ⟨getVelocity sqrtF u.x u.y u.time last.x last.y last.time,
           distanceBetweenTwoPoints sqrtF u.x last.x u.y last.y,
           last.time - u.time,
           getAngle atan2F piv u.x u.y last.x last.y⟩
  else SwipeStepRes.skip

/-- The end loop of Swipe.end: processes inputs in order, carrying the
function-scoped loop variable a (the most recently computed velocity,
which the source later reads in its escape-velocity check) and the data
array built so far; a none result means the call returned early - an
input that has not ended returns undefined, an excessive rest time
returns null, and either way nothing is emitted. -/
def swipeEndLoop (sqrtF : α → α) (atan2F : α → α → α) (piv : α)
    (cfg : SwipeCfg α) (now : α) :
    List (SwipeInput α) → Option α → List (Option (SwipeData α)) →
      Option (Option α × List (Option (SwipeData α)))
  | [], a, acc => some (a, acc)
  | inp :: rest, a, acc =>
    if inp.phase = Phase.ended then
      match swipeProcess sqrtF atan2F piv cfg now inp with
      | SwipeStepRes.abort => none
      | SwipeStepRes.skip => swipeEndLoop sqrtF atan2F piv cfg now rest a (acc ++ [none])
      | SwipeStepRes.data d =>
          swipeEndLoop sqrtF atan2F piv cfg now rest (some d.velocity) (acc ++ [some d])
    else none

/-- Trailing holes of a JS array do not extend its length: t.data[n] is
only assigned for qualifying inputs, so t.data.length is one past the last
assigned index. -/
def trimTrailingHoles (l : List (Option (SwipeData α))) : List (Option (SwipeData α)) :=
  (l.reverse.dropWhile Option.isNone).reverse

/-- Swipe.end (bundle module 13): null unless the input count matches
numInputs; an early return while scanning inputs yields no emission;
afterwards the source checks the leaked loop variable a - the velocity of
the last input that had more than two samples - against escapeVelocity
once per data entry (a comparison against undefined is false and rejects
nothing), and returns the output only when the data array is nonempty. -/
def swipeEnd (sqrtF : α → α) (atan2F : α → α → α) (piv : α)
    (cfg : SwipeCfg α) (now : α) (inputs : List (SwipeInput α)) :
    Option (SwipeOutput α) :=
  if cfg.numInputs = inputs.length then
    match swipeEndLoop sqrtF atan2F piv cfg now inputs none [] with
    | none => none
    | some (a, acc) =>
      let data := trimTrailingHoles acc
      if 0 < data.length then
        match a with
        | some v => if v < cfg.escapeVelocity then none else some ⟨data⟩
        | none => some ⟨data⟩
      else none
  else none

end Swipe

/-- C3 failing input, first pointer: ended, three samples moving one pixel
in ten milliseconds - velocity 1/10, below the default escape velocity
1/5. -/
def swipeSlowInput : SwipeInput ℚ :=
  ⟨Phase.ended, ⟨1, 0⟩, [⟨0, 0, 0⟩, ⟨10, 0, 0⟩, ⟨20, 1, 0⟩]⟩

/-- C3 failing input, second pointer: ended, three samples moving fifty
pixels in ten milliseconds - velocity 5, above the escape velocity. -/
def swipeFastInput : SwipeInput ℚ :=
  ⟨Phase.ended, ⟨50, 0⟩, [⟨0, 0, 0⟩, ⟨10, 0, 0⟩, ⟨20, 50, 0⟩]⟩

/-- A two-input Swipe configuration with the default thresholds. -/
def swipeCfg2 : SwipeCfg ℚ :=
  ⟨2, 100, 2 / 10, 100, 10⟩

/-- C3: evaluating Swipe.end at the failing input shows the defect the
spec flags: the batch is emitted in full even though the first input's
velocity 1/10 is below escapeVelocity 1/5, because the escape-velocity
loop compares only the leaked loop variable holding the last input's
velocity 5.  The claim requires a single slow input to suppress the whole
emission. -/
theorem swipe_end_ignores_slow_input :
    swipeEnd sqrtTab (fun _ _ => 0) 1 swipeCfg2 20 [swipeSlowInput, swipeFastInput] =
        some ⟨[some ⟨1 / 10, 1, 10, 360⟩, some ⟨5, 50, 10, 360⟩]⟩
      ∧ (1 / 10 : ℚ) < swipeCfg2.escapeVelocity := by
  constructor
  · norm_num [swipeEnd, swipeEndLoop, swipeProcess, trimTrailingHoles,
      getVelocity, distanceBetweenTwoPoints, round2, round_eq, getAngle,
      sqrtTab, swipeCfg2, swipeSlowInput, swipeFastInput]
  · norm_num [swipeCfg2]

/-- C9: eleven consecutive single-input move updates leave eleven samples
in the scratch buffer, exceeding the default maxProgressStack of ten - the
shift that should drop the oldest sample is dead code because its guard
reads an undefined property.  The claim bounds the buffer by ten. -/
theorem swipe_buffer_grows_past_bound :
    ((List.range 11).foldl
        (fun inputs k => swipeMove defaultSwipeCfg (k : ℚ) inputs)
        [⟨Phase.move, ⟨0, 0⟩, []⟩]).map (fun inp => inp.moves.length) = [11]
      ∧ 11 > defaultSwipeCfg.maxProgressStack := by
  constructor
  · rfl
  · norm_num [defaultSwipeCfg]

/-! ## Tap (bundle module 14) -/

/-- Per-input Tap scratch state: the recorded start time, missing until
Tap.start runs and cleared by resetProgress. -/
structure TapProgress (α : Type) where
  start : Option α
deriving DecidableEq

/-- The slice of an Input that Tap reads: the phase (via
getCurrentEventType), the current and previous positions, and the Tap
scratch state. -/
structure TapInput (α : Type) where
  phase : Phase
  current : Point2D α
  previous : Point2D α
  progress : TapProgress α
deriving DecidableEq

/-- The payload Tap.end emits. -/
structure TapResult (α : Type) where
  interval : α
deriving DecidableEq

/-- Tap configuration after constructor defaulting: minDelay 0,
maxDelay 300, numInputs 1, tolerance 10. -/
structure TapCfg (α : Type) where
  minDelay : α
  maxDelay : α
  numInputs : ℕ
  tolerance : α
deriving DecidableEq

section Tap

variable {α : Type} [LinearOrderedField α]

/-- Input.resetProgress for the tap gesture: the scratch object becomes
empty again. -/
def resetTapProgress (inp : TapInput α) : TapInput α :=
  { inp with progress := ⟨none⟩ }

/-- Tap.start (bundle module 14): when the input count matches numInputs,
record the current wall-clock time as the start of every input. -/
def tapStart (cfg : TapCfg α) (now : α) (inputs : List (TapInput α)) :
    List (TapInput α) :=
  if inputs.length = cfg.numInputs then
    inputs.map (fun inp => { inp with progress := ⟨some now⟩ })
  else inputs

/-- The loop of Tap.move: walk the inputs in order; at the first input in
the move phase whose current position is not within tolerance of its
previous position, reset the tap progress of every input and return.  The
hook itself always returns null, so only the scratch state matters. -/
def tapMoveLoop (cfg : TapCfg α) (all : List (TapInput α)) :
    List (TapInput α) → List (TapInput α)
  | [] => all
  | inp :: rest =>
    if inp.phase = Phase.move
        ∧ ¬ isWithin inp.current.x inp.current.y inp.previous.x inp.previous.y
            cfg.tolerance
    then all.map resetTapProgress
    else tapMoveLoop cfg all rest

/-- Tap.move (bundle module 14). -/
def tapMove (cfg : TapCfg α) (inputs : List (TapInput α)) : List (TapInput α) :=
  tapMoveLoop cfg inputs inputs

/-- The minimum-tracking step of the end loop: t, seeded with
Number.MAX_VALUE, drops to every recorded start below it. -/
def tapMinStep (t : α) (inp : TapInput α) : α :=
  match inp.progress.start with
  | some s => if s < t then s else t
  | none => t

/-- The loop of Tap.end: an input that has not ended, or whose recorded
start is falsy (missing or zero), aborts the call with null; otherwise the
minimum recorded start is accumulated. -/
def tapEndLoop (t : α) : List (TapInput α) → Option α
  | [] => some t
  | inp :: rest =>
    if inp.phase = Phase.ended then
      if jsTruthy inp.progress.start = true then tapEndLoop (tapMinStep t inp) rest
      else none
    else none

/-- The value t holds after the end loop: the fold of tapMinStep from the
Number.MAX_VALUE sentinel, i.e. the earliest recorded start. -/
def tapMinStart (inputs : List (TapInput α)) : α :=
  inputs.foldl tapMinStep jsMaxValue

/-- Tap.end (bundle module 14): null when the input count differs from
numInputs; null when some input has not ended or lacks a truthy recorded
start; otherwise {interval} is emitted when now minus the earliest
recorded start lies within [minDelay, maxDelay], and on a delay-window
failure every input's tap progress is reset.  The second component is the
resulting inputs: scratch is only touched by that reset. -/
def tapEnd (cfg : TapCfg α) (now : α) (inputs : List (TapInput α)) :
    Option (TapResult α) × List (TapInput α) :=
  if inputs.length ≠ cfg.numInputs then (none, inputs)
  else
    match tapEndLoop jsMaxValue inputs with
    | none => (none, inputs)
    | some t =>
      let i := now - t
      if cfg.minDelay ≤ i ∧ cfg.maxDelay ≥ i then (some ⟨i⟩, inputs)
      else (none, inputs.map resetTapProgress)

theorem tapEndLoop_spec (l : List (TapInput α)) :
    ∀ t : α, tapEndLoop t l =
      (if ∀ inp ∈ l, inp.phase = Phase.ended ∧ jsTruthy inp.progress.start = true
       then some (l.foldl tapMinStep t) else none) := by
  induction l with
  | nil => intro t; simp [tapEndLoop]
  | cons inp rest ih =>
    intro t
    by_cases h1 : inp.phase = Phase.ended
    · by_cases h2 : jsTruthy inp.progress.start = true
      · simp [tapEndLoop, h1, h2, ih, List.forall_mem_cons]
      · simp [tapEndLoop, h1, h2, List.forall_mem_cons]
    · simp [tapEndLoop, h1, List.forall_mem_cons]

theorem tapMoveLoop_spec (cfg : TapCfg α) (all l : List (TapInput α)) :
    tapMoveLoop cfg all l =
      (if ∃ inp ∈ l, inp.phase = Phase.move
          ∧ ¬ isWithin inp.current.x inp.current.y inp.previous.x inp.previous.y
              cfg.tolerance
       then all.map resetTapProgress else all) := by
  induction l with
  | nil => simp [tapMoveLoop]
  | cons inp rest ih =>
    by_cases h : inp.phase = Phase.move
        ∧ ¬ isWithin inp.current.x inp.current.y inp.previous.x inp.previous.y
            cfg.tolerance
    · simp only [tapMoveLoop, if_pos h]
      rw [if_pos]
      exact ⟨inp, List.mem_cons_self _ _, h⟩
    · simp only [tapMoveLoop, if_neg h, ih]
      by_cases hrest : ∃ inp ∈ rest, inp.phase = Phase.move
          ∧ ¬ isWithin inp.current.x inp.current.y inp.previous.x inp.previous.y
              cfg.tolerance
      · rw [if_pos hrest, if_pos]
        obtain ⟨j, hj, hjp⟩ := hrest
        exact ⟨j, List.mem_cons_of_mem _ hj, hjp⟩
      · rw [if_neg hrest, if_neg]
        intro hcons
        obtain ⟨j, hj, hjp⟩ := hcons
        rcases List.mem_cons.mp hj with rfl | hj
        · exact h hjp
        · exact hrest ⟨j, hj, hjp⟩

/-- C4 (amended): Tap.end emits {interval} if and only if the input count
matches numInputs, every input has ended and still holds a truthy recorded
start (movement beyond tolerance clears it beforehand through the reset in
Tap.move), and the interval - now minus the earliest recorded start - lies
within [minDelay, maxDelay]; any emitted payload carries exactly that
interval; the scratch state is reset exactly when all checks pass except
the delay window, so count, phase and missing-start failures leave the
scratch untouched; and Tap.move resets every scratch exactly when some
input in the move phase strayed beyond tolerance from its previous
position. -/
theorem tap_end_iff_and_reset (cfg : TapCfg α) (now : α)
    (inputs : List (TapInput α)) :
    ((tapEnd cfg now inputs).1 = some ⟨now - tapMinStart inputs⟩
        ↔ (inputs.length = cfg.numInputs
            ∧ (∀ inp ∈ inputs, inp.phase = Phase.ended
                ∧ jsTruthy inp.progress.start = true)
            ∧ cfg.minDelay ≤ now - tapMinStart inputs
            ∧ cfg.maxDelay ≥ now - tapMinStart inputs))
      ∧ (∀ r, (tapEnd cfg now inputs).1 = some r →
          r = ⟨now - tapMinStart inputs⟩)
      ∧ ((tapEnd cfg now inputs).2 =
          if inputs.length = cfg.numInputs
              ∧ (∀ inp ∈ inputs, inp.phase = Phase.ended
                  ∧ jsTruthy inp.progress.start = true)
              ∧ ¬(cfg.minDelay ≤ now - tapMinStart inputs
                  ∧ cfg.maxDelay ≥ now - tapMinStart inputs)
          then inputs.map resetTapProgress else inputs)
      ∧ (tapMove cfg inputs =
          if ∃ inp ∈ inputs, inp.phase = Phase.move
              ∧ ¬ isWithin inp.current.x inp.current.y inp.previous.x
                  inp.previous.y cfg.tolerance
          then inputs.map resetTapProgress else inputs) := by
  have hmove := tapMoveLoop_spec cfg inputs inputs
  have hloop := tapEndLoop_spec inputs (jsMaxValue (α := α))
  have hfold : List.foldl tapMinStep jsMaxValue inputs = tapMinStart inputs := rfl
  by_cases hlen : inputs.length = cfg.numInputs
  · by_cases hP : ∀ inp ∈ inputs, inp.phase = Phase.ended
        ∧ jsTruthy inp.progress.start = true
    · rw [if_pos hP, hfold] at hloop
      by_cases hW : cfg.minDelay ≤ now - tapMinStart inputs
          ∧ cfg.maxDelay ≥ now - tapMinStart inputs
      · have hend : tapEnd cfg now inputs =
            (some ⟨now - tapMinStart inputs⟩, inputs) := by
          unfold tapEnd
          rw [if_neg (by simp [hlen])]
          simp only [hloop]
          exact if_pos hW
        refine ⟨iff_of_true (by rw [hend]) ⟨hlen, hP, hW.1, hW.2⟩, ?_, ?_, hmove⟩
        · intro r hr
          rw [hend] at hr
          exact (Option.some_inj.mp hr).symm
        · rw [hend, if_neg (fun hc => hc.2.2 hW)]
      · have hend : tapEnd cfg now inputs =
            (none, inputs.map resetTapProgress) := by
          unfold tapEnd
          rw [if_neg (by simp [hlen])]
          simp only [hloop]
          exact if_neg hW
        refine ⟨iff_of_false (by rw [hend]; simp)
            (fun hc => hW ⟨hc.2.2.1, hc.2.2.2⟩), ?_, ?_, hmove⟩
        · intro r hr
          rw [hend] at hr
          exact absurd hr (by simp)
        · rw [hend, if_pos ⟨hlen, hP, hW⟩]
    · rw [if_neg hP] at hloop
      have hend : tapEnd cfg now inputs = (none, inputs) := by
        unfold tapEnd
        rw [if_neg (by simp [hlen])]
        simp only [hloop]
      refine ⟨iff_of_false (by rw [hend]; simp) (fun hc => hP hc.2.1),
          ?_, ?_, hmove⟩
      · intro r hr
        rw [hend] at hr
        exact absurd hr (by simp)
      · rw [hend, if_neg (fun hc => hP hc.2.1)]
  · have hend : tapEnd cfg now inputs = (none, inputs) := by
      unfold tapEnd
      rw [if_pos hlen]
    refine ⟨iff_of_false (by rw [hend]; simp) (fun hc => hlen hc.1),
        ?_, ?_, hmove⟩
    · intro r hr
      rw [hend] at hr
      exact absurd hr (by simp)
    · rw [hend, if_neg (fun hc => hlen hc.1)]

end Tap

/-- The default Tap configuration: minDelay 0, maxDelay 300, numInputs 1,
tolerance 10. -/
def tapCfgDefault : TapCfg ℚ :=
  ⟨0, 300, 1, 10⟩

/-- A finished input whose tap scratch still records the start time 5. -/
def tapEndedInput : TapInput ℚ :=
  ⟨Phase.ended, ⟨0, 0⟩, ⟨0, 0⟩, ⟨some 5⟩⟩

/-- C4 counterexample: an end update carrying two ended inputs while
numInputs is 1 emits nothing, but both inputs keep their scratch state
(start 5 survives), so the per-input scratch is not reset even though the
claim demands a reset in every non-emitting case. -/
theorem tap_end_keeps_scratch_on_count_mismatch :
    (tapEnd tapCfgDefault 10 [tapEndedInput, tapEndedInput]).1 = none
      ∧ (tapEnd tapCfgDefault 10 [tapEndedInput, tapEndedInput]).2 =
          [tapEndedInput, tapEndedInput]
      ∧ [tapEndedInput, tapEndedInput].map resetTapProgress ≠
          [tapEndedInput, tapEndedInput] := by
  refine ⟨?_, ?_, ?_⟩ <;>
    simp [tapEnd, resetTapProgress, tapCfgDefault, tapEndedInput]

/-- C4 witness: the characterization applied to one ended input with
start 5 at wall-clock time 10 - the tap emits, with interval 10 minus the
earliest recorded start. -/
theorem tap_end_iff_and_reset_witness :
    (tapEnd tapCfgDefault 10 [tapEndedInput]).1 =
      some ⟨10 - tapMinStart [tapEndedInput]⟩ :=
  (tap_end_iff_and_reset tapCfgDefault 10 [tapEndedInput]).1.mpr
    (by
      refine ⟨rfl, ?_, ?_, ?_⟩
      · intro inp hinp
        rcases List.mem_cons.mp hinp with rfl | h
        · exact ⟨rfl, by norm_num [jsTruthy, tapEndedInput]⟩
        · simp at h
      · norm_num [tapMinStart, tapMinStep, tapEndedInput, tapCfgDefault,
          jsMaxValue]
      · norm_num [tapMinStart, tapMinStep, tapEndedInput, tapCfgDefault,
          jsMaxValue])

/-! ## Rotate (bundle module 12) -/

/-- Per-input Rotate scratch state.  A fresh progress object has no
initialAngle key (none); the source guards on the JS truthiness of
initialAngle, so an angle of exactly 0 would re-initialize - getAngle
never returns 0, so this does not occur in runs driven by it.
previousAngle, distance and change are only read after initialAngle is
truthy, by which point they have been written; their initial value 0
stands for the undefined of a fresh object. -/
structure RotateProgress (α : Type) where
  initialAngle : Option α
  previousAngle : α
  distance : α
  change : α
deriving DecidableEq

/-- The payload Rotate.move emits on every matching move update. -/
structure RotateResult (α : Type) where
  angle : α
  distanceFromOrigin : α
  distanceFromLast : α
deriving DecidableEq

/-- One observed Rotate.move update, reduced to what the source reads: the
rotation center (the element center in the one-input case, the midpoint of
the current positions in the two-input case), the current position of the
tracked input (the single input, or the right-most one), and the
wall-clock timestamp of the update - which Rotate.move never reads. -/
structure RotateSample (α : Type) where
  center : Point2D α
  pos : Point2D α
  time : α
deriving DecidableEq

section Rotate

variable {α : Type} [LinearOrderedField α] [FloorRing α]

/-- A fresh (empty) rotate progress object. -/
def emptyRotateProgress : RotateProgress α :=
  ⟨none, 0, 0, 0⟩

/-- The progress update and emitted result of one Rotate.move call, given
the angle s computed for this update: when initialAngle is truthy, change
becomes the angular distance from previousAngle to s and distance
accumulates it; otherwise the scratch initializes with distance and change
0; previousAngle becomes s either way, and the result reads the updated
fields. -/
def rotateCore (c : RotateProgress α) (s : α) :
    RotateProgress α × RotateResult α :=
  if jsTruthy c.initialAngle = true then
    (⟨c.initialAngle, s,
      c.distance + getAngularDistance c.previousAngle s,
      getAngularDistance c.previousAngle s⟩,
     ⟨s, c.distance + getAngularDistance c.previousAngle s,
      getAngularDistance c.previousAngle s⟩)
  else
    (⟨some s, s, 0, 0⟩, ⟨s, 0, 0⟩)

/-- A run of Rotate.move updates at the level of the computed angles:
threads the scratch state and collects the emitted results in order. -/
def rotateRun (c : RotateProgress α) :
    List α → RotateProgress α × List (RotateResult α)
  | [] => (c, [])
  | s :: rest =>
    let step := rotateCore c s
    let tail := rotateRun step.1 rest
    (tail.1, step.2 :: tail.2)

/-- The signed sum of the per-step angular distances along prev :: l. -/
def sumSteps (prev : α) : List α → α
  | [] => 0
  | a :: rest => getAngularDistance prev a + sumSteps a rest

/-- The signed sum of the per-step angular distances of the consecutive
pairs of an angle list (0 when there are fewer than two angles). -/
def rotateSignedSum : List α → α
  | [] => 0
  | a :: rest => sumSteps a rest

/-- The angle Rotate.move computes for each update of a run. -/
def rotateAngles (atan2F : α → α → α) (piv : α)
    (samples : List (RotateSample α)) : List α :=
  samples.map (fun smp =>
    getAngle atan2F piv smp.center.x smp.center.y smp.pos.x smp.pos.y)

/-- A run of Rotate.move updates from a fresh progress object. -/
def rotateMoveRun (atan2F : α → α → α) (piv : α)
    (samples : List (RotateSample α)) :
    RotateProgress α × List (RotateResult α) :=
  rotateRun emptyRotateProgress (rotateAngles atan2F piv samples)

theorem jsMod_abs_lt (a b : α) (hb : 0 < b) : |jsMod a b| < b := by
  rw [jsMod, rtz]
  split_ifs with h
  · have h1 : ((⌊a / b⌋ : ℤ) : α) ≤ a / b := Int.floor_le _
    have h2 : a / b < ((⌊a / b⌋ : ℤ) : α) + 1 := Int.lt_floor_add_one _
    have h1b : ((⌊a / b⌋ : ℤ) : α) * b ≤ a := by
      have := mul_le_mul_of_nonneg_right h1 hb.le
      rwa [div_mul_cancel₀ _ hb.ne.symm] at this
    have h2b : a < (((⌊a / b⌋ : ℤ) : α) + 1) * b := by
      have := mul_lt_mul_of_pos_right h2 hb
      rwa [div_mul_cancel₀ _ hb.ne.symm] at this
    rw [abs_lt]
    constructor <;> nlinarith
  · have h1 : a / b ≤ ((⌈a / b⌉ : ℤ) : α) := Int.le_ceil _
    have h2 : ((⌈a / b⌉ : ℤ) : α) < a / b + 1 := Int.ceil_lt_add_one _
    have h1b : a ≤ ((⌈a / b⌉ : ℤ) : α) * b := by
      have := mul_le_mul_of_nonneg_right h1 hb.le
      rwa [div_mul_cancel₀ _ hb.ne.symm] at this
    have h2b : (((⌈a / b⌉ : ℤ) : α)) * b < a + b := by
      have := mul_lt_mul_of_pos_right h2 hb
      rwa [add_mul, one_mul, div_mul_cancel₀ _ hb.ne.symm] at this
    rw [abs_lt]
    constructor <;> nlinarith

theorem getAngularDistance_bounds (a b : α) :
    -180 ≤ getAngularDistance a b ∧ getAngularDistance a b ≤ 180 := by
  obtain ⟨hm1, hm2⟩ := abs_lt.mp (jsMod_abs_lt (b - a) 360 (by norm_num))
  simp only [getAngularDistance]
  rcases lt_or_le (jsMod (b - a) 360) 0 with h0 | h0
  · simp only [if_pos h0, abs_of_neg h0]
    split_ifs with hbig
    · constructor <;> linarith
    · constructor <;> linarith
  · simp only [if_neg (not_lt.mpr h0), abs_of_nonneg h0]
    split_ifs with hbig
    · constructor <;> linarith
    · constructor <;> linarith

theorem rotateRun_started (l : List α) :
    ∀ c : RotateProgress α, jsTruthy c.initialAngle = true →
      (rotateRun c l).1.distance = c.distance + sumSteps c.previousAngle l
        ∧ (rotateRun c l).2.length = l.length
        ∧ ∀ k r, (rotateRun c l).2.get? k = some r →
            r.distanceFromOrigin =
              c.distance + sumSteps c.previousAngle (l.take (k + 1)) := by
  induction l with
  | nil =>
    intro c hc
    refine ⟨by simp [rotateRun, sumSteps], by simp [rotateRun], ?_⟩
    intro k r hr
    simp [rotateRun] at hr
  | cons a rest ih =>
    intro c hc
    have hcore : rotateCore c a =
        (⟨c.initialAngle, a,
          c.distance + getAngularDistance c.previousAngle a,
          getAngularDistance c.previousAngle a⟩,
         ⟨a, c.distance + getAngularDistance c.previousAngle a,
          getAngularDistance c.previousAngle a⟩) := by
      rw [rotateCore, if_pos hc]
    obtain ⟨ih1, ih2, ih3⟩ := ih
      ⟨c.initialAngle, a,
        c.distance + getAngularDistance c.previousAngle a,
        getAngularDistance c.previousAngle a⟩ hc
    refine ⟨?_, ?_, ?_⟩
    · show (rotateRun (rotateCore c a).1 rest).1.distance = _
      rw [hcore]
      rw [ih1]
      simp [sumSteps]
      ring
    · show ((rotateRun (rotateCore c a).1 rest).2.length + 1 = _)
      rw [hcore]
      simp [ih2]
    · intro k r hr
      match k with
      | 0 =>
        have hr0 : (rotateCore c a).2 = r := by
          simpa [rotateRun] using hr
        rw [← hr0, hcore]
        simp [sumSteps]
      | Nat.succ k =>
        have hr2 : (rotateRun (rotateCore c a).1 rest).2.get? k = some r := by
          simpa [rotateRun] using hr
        rw [hcore] at hr2
        have := ih3 k r hr2
        rw [this]
        simp [sumSteps]
        ring

theorem rotateRun_fresh (l : List α) (h1 : ∀ a ∈ l, a ≠ 0) :
    (rotateRun (emptyRotateProgress (α := α)) l).1.distance = rotateSignedSum l
      ∧ (rotateRun (emptyRotateProgress (α := α)) l).2.length = l.length
      ∧ ∀ k r, (rotateRun (emptyRotateProgress (α := α)) l).2.get? k = some r →
          r.distanceFromOrigin = rotateSignedSum (l.take (k + 1)) := by
  cases l with
  | nil =>
    refine ⟨by simp [rotateRun, rotateSignedSum, emptyRotateProgress],
      by simp [rotateRun], ?_⟩
    intro k r hr
    simp [rotateRun] at hr
  | cons a rest =>
    have ha : a ≠ 0 := h1 a (List.mem_cons_self _ _)
    have hcore : rotateCore (emptyRotateProgress (α := α)) a =
        (⟨some a, a, 0, 0⟩, ⟨a, 0, 0⟩) := by
      rw [rotateCore, if_neg (by simp [jsTruthy, emptyRotateProgress])]
    have htruthy : jsTruthy (some a) = true := by
      simp [jsTruthy, ha]
    obtain ⟨ih1, ih2, ih3⟩ :=
      rotateRun_started rest (⟨some a, a, 0, 0⟩ : RotateProgress α) htruthy
    refine ⟨?_, ?_, ?_⟩
    · show (rotateRun (rotateCore (emptyRotateProgress (α := α)) a).1 rest).1.distance = _
      rw [hcore]
      rw [ih1]
      simp [rotateSignedSum]
    · show ((rotateRun (rotateCore (emptyRotateProgress (α := α)) a).1 rest).2.length + 1 = _)
      rw [hcore]
      simp [ih2]
    · intro k r hr
      match k with
      | 0 =>
        have hr0 : (rotateCore (emptyRotateProgress (α := α)) a).2 = r := by
          simpa [rotateRun] using hr
        rw [← hr0, hcore]
        simp [rotateSignedSum, sumSteps]
      | Nat.succ k =>
        have hr2 : (rotateRun (rotateCore (emptyRotateProgress (α := α)) a).1 rest).2.get? k
            = some r := by
          simpa [rotateRun] using hr
        rw [hcore] at hr2
        have := ih3 k r hr2
        rw [this]
        simp [rotateSignedSum]
end Rotate

/-- C6: for every sequence of Rotate move updates (driven by the real
atan2), the accumulated distance of the scratch state equals the signed
sum of the per-step angular distances of consecutive computed angles;
every per-step angular distance lies in [-180, 180] (the signed shortest
arc); every emitted distanceFromOrigin equals the signed sum of the steps
seen so far; and the whole run is unchanged under any re-parameterization
of the update timestamps, because Rotate.move never reads them. -/
theorem rotate_distance_is_signed_sum (samples : List (RotateSample ℝ))
    (f : ℝ → ℝ) :
    ((rotateMoveRun jsAtan2 Real.pi samples).1.distance =
        rotateSignedSum (rotateAngles jsAtan2 Real.pi samples))
      ∧ (∀ x y : ℝ, -180 ≤ getAngularDistance x y ∧ getAngularDistance x y ≤ 180)
      ∧ (∀ k r, (rotateMoveRun jsAtan2 Real.pi samples).2.get? k = some r →
          r.distanceFromOrigin =
            rotateSignedSum ((rotateAngles jsAtan2 Real.pi samples).take (k + 1)))
      ∧ rotateMoveRun jsAtan2 Real.pi
            (samples.map (fun smp => { smp with time := f smp.time })) =
          rotateMoveRun jsAtan2 Real.pi samples := by
  have hne : ∀ a ∈ rotateAngles jsAtan2 Real.pi samples, a ≠ 0 := by
    intro a ha
    rw [rotateAngles, List.mem_map] at ha
    obtain ⟨smp, _, rfl⟩ := ha
    exact ne_of_gt (getAngleR_bounds _ _ _ _).1
  obtain ⟨h1, _, h3⟩ := rotateRun_fresh (rotateAngles jsAtan2 Real.pi samples) hne
  refine ⟨h1, getAngularDistance_bounds, h3, ?_⟩
  have hangles : rotateAngles jsAtan2 Real.pi
      (samples.map (fun smp => { smp with time := f smp.time })) =
        rotateAngles jsAtan2 Real.pi samples := by
    rw [rotateAngles, rotateAngles, List.map_map]
    rfl
  rw [rotateMoveRun, rotateMoveRun, hangles]

/-- C6 witness: the bounds clause of the theorem applied to the concrete
angles 90 and 100 (and the run clauses hold at the empty sample list with
the identity re-parameterization). -/
theorem rotate_distance_is_signed_sum_witness :
    -180 ≤ getAngularDistance (90 : ℝ) 100
      ∧ getAngularDistance (90 : ℝ) 100 ≤ 180 :=
  (rotate_distance_is_signed_sum [] id).2.1 90 100

/-! ## Input lifecycle (src/core/State.js, src/core/Input.js and bundle
modules 9, 16, 17) -/

/-- The platform event types the normalizeEvent table knows, plus a
stand-in for any unknown type. -/
inductive EvType
  | mousedown
  | touchstart
  | pointerdown
  | mousemove
  | touchmove
  | pointermove
  | mouseup
  | touchend
  | pointerup
  | other
deriving DecidableEq

/-- util.normalizeEvent (bundle module 5): the frozen object-literal
lookup; an unknown type yields undefined (none). -/
def normalizeEvent : EvType → Option Phase
  | EvType.mousedown => some Phase.start
  | EvType.touchstart => some Phase.start
  | EvType.pointerdown => some Phase.start
  | EvType.mousemove => some Phase.move
  | EvType.touchmove => some Phase.move
  | EvType.pointermove => some Phase.move
  | EvType.mouseup => some Phase.ended
  | EvType.touchend => some Phase.ended
  | EvType.pointerup => some Phase.ended
  | EvType.other => none

/-- A raw platform event reduced to the fields the input lifecycle reads:
its type and client coordinates. -/
structure RawEvent (α : Type) where
  etype : EvType
  clientX : α
  clientY : α
deriving DecidableEq

/-- ZingEvent (bundle module 17): the normalized snapshot of one raw
event - its normalized type and position. -/
structure ZEvent (α : Type) where
  type : Option Phase
  x : α
  y : α
deriving DecidableEq

/-- Construction of a ZingEvent from a raw event. -/
def ZEvent.ofRaw {α : Type} (ev : RawEvent α) : ZEvent α :=
  ⟨normalizeEvent ev.etype, ev.clientX, ev.clientY⟩

/-- Input (src/core/Input.js and bundle module 16): the initial, current
and previous normalized events plus the platform identifier.  The
per-gesture progress map is modelled separately with each gesture. -/
structure Input (α : Type) where
  initial : ZEvent α
  current : ZEvent α
  previous : ZEvent α
  identifier : ℕ
deriving DecidableEq

/-- The Input constructor: all three held events are the same fresh
snapshot of the raw event. -/
def Input.fresh {α : Type} (ev : RawEvent α) (identifier : ℕ) : Input α :=
  ⟨ZEvent.ofRaw ev, ZEvent.ofRaw ev, ZEvent.ofRaw ev, identifier⟩

/-- Input.update: previous takes the old current, current the new
snapshot; initial never changes. -/
def Input.updateWith {α : Type} (inp : Input α) (ev : RawEvent α) : Input α :=
  { inp with previous := inp.current, current := ZEvent.ofRaw ev }

/-- Input.phase (src/core/Input.js): the type of the current event. -/
def Input.currentPhase {α : Type} (inp : Input α) : Option Phase :=
  inp.current.type

/-- Indexing the sparse JS inputs array of src/core/State.js: reading
past the populated part, or a hole, yields undefined (none). -/
def getSparse {α : Type} (inputs : List (Option (Input α))) (i : ℕ) :
    Option (Input α) :=
  (inputs.get? i).getD none

/-- Assignment into the sparse JS inputs array: the array grows with
holes up to the index when needed. -/
def setSparse {α : Type} (inputs : List (Option (Input α))) (i : ℕ)
    (v : Option (Input α)) : List (Option (Input α)) :=
  (inputs ++ List.replicate (i + 1 - inputs.length) none).set i v

/-- State.updateInput (src/core/State.js lines 86-92): a start event
installs a fresh Input at the index of the identifier unconditionally;
any other event updates the Input at that index when one exists, and
otherwise does nothing at all. -/
def stateUpdateInput {α : Type} (ev : RawEvent α) (identifier : ℕ)
    (inputs : List (Option (Input α))) : List (Option (Input α)) :=
  if normalizeEvent ev.etype = some Phase.start then
    setSparse inputs identifier (some (Input.fresh ev identifier))
  else
    match getSparse inputs identifier with
    | some inp => setSparse inputs identifier (some (inp.updateWith ev))
    | none => inputs

/-- The bounding rectangle an element reports
(getBoundingClientRect). -/
structure Rect (α : Type) where
  left : α
  top : α
  width : α
  height : α
deriving DecidableEq

/-- util.isInside(x, y, element) (bundle module 5): strict containment in
the bounding rectangle of the element. -/
def isInside {α : Type} [LinearOrderedField α] (x y : α) (r : Rect α) : Prop :=
  r.left < x ∧ x < r.left + r.width ∧ r.top < y ∧ y < r.top + r.height

instance {α : Type} [LinearOrderedField α] (x y : α) (r : Rect α) :
    Decidable (isInside x y r) :=
  inferInstanceAs (Decidable (_ ∧ _ ∧ _ ∧ _))

/-- Replace the first input matching the predicate - the JS code mutates
the object located by find. -/
def updateFirst {α : Type} (p : Input α → Bool) (f : Input α → Input α) :
    List (Input α) → List (Input α)
  | [] => []
  | inp :: rest => if p inp then f inp :: rest else inp :: updateFirst p f rest

/-- The inner update function of State.updateInputs (bundle module 9),
with o the tracked Input found for the identifier: a start event with o
present resets the whole input set; a non-start event with o present but
currently outside the element also resets it; a start event with o absent
pushes a fresh Input; a non-start event with o present and inside updates
o in place; and a non-start event with o absent resets the input set. -/
def bundleUpdateInput {α : Type} [LinearOrderedField α] (ev : RawEvent α)
    (inputs : List (Input α)) (identifier : ℕ) (element : Rect α) :
    List (Input α) :=
  match inputs.find? (fun inp => decide (inp.identifier = identifier)) with
  | some o =>
    if normalizeEvent ev.etype = some Phase.start then []
    else if ¬ isInside o.current.x o.current.y element then []
    else updateFirst (fun inp => decide (inp.identifier = identifier))
        (fun inp => inp.updateWith ev) inputs
  | none =>
    if normalizeEvent ev.etype = some Phase.start then
      inputs ++ [Input.fresh ev identifier]
    else []

theorem getSparse_setSparse {α : Type} (l : List (Option (Input α)))
    (i : ℕ) (v : Option (Input α)) : getSparse (setSparse l i v) i = v := by
  rw [getSparse, setSparse, List.get?_eq_getElem?]
  rw [List.getElem?_set_eq_of_lt _
    (by simp only [List.length_append, List.length_replicate]; omega)]
  rfl

/-- C7 (amended): in updateInput of src/core/State.js, a Start event
installs a fresh Input - initial, current and previous all equal to the
new snapshot - at the slot of the identifier, replacing whatever Input
was held there (in particular an End-phase one); in the bundled v1.0.5
update, a Start for an identifier that already tracks an Input (End-phase
included) instead resets the whole input set and creates nothing, and
only a Start for an untracked identifier appends the fresh Input. -/
theorem start_replaces_or_resets {α : Type} [LinearOrderedField α] :
    (∀ (ev : RawEvent α) (identifier : ℕ) (inputs : List (Option (Input α))),
      normalizeEvent ev.etype = some Phase.start →
        stateUpdateInput ev identifier inputs =
            setSparse inputs identifier (some (Input.fresh ev identifier))
          ∧ getSparse (stateUpdateInput ev identifier inputs) identifier =
              some (Input.fresh ev identifier)
          ∧ (Input.fresh ev identifier).initial = ZEvent.ofRaw ev
          ∧ (Input.fresh ev identifier).current = ZEvent.ofRaw ev
          ∧ (Input.fresh ev identifier).previous = ZEvent.ofRaw ev)
      ∧ (∀ (ev : RawEvent α) (inputs : List (Input α)) (identifier : ℕ)
            (element : Rect α),
          normalizeEvent ev.etype = some Phase.start →
          (inputs.find? (fun inp => decide (inp.identifier = identifier))).isSome →
            bundleUpdateInput ev inputs identifier element = [])
      ∧ (∀ (ev : RawEvent α) (inputs : List (Input α)) (identifier : ℕ)
            (element : Rect α),
          normalizeEvent ev.etype = some Phase.start →
          inputs.find? (fun inp => decide (inp.identifier = identifier)) = none →
            bundleUpdateInput ev inputs identifier element =
              inputs ++ [Input.fresh ev identifier]) := by
  refine ⟨?_, ?_, ?_⟩
  · intro ev identifier inputs hstart
    have hupd : stateUpdateInput ev identifier inputs =
        setSparse inputs identifier (some (Input.fresh ev identifier)) := by
      rw [stateUpdateInput, if_pos hstart]
    exact ⟨hupd, by rw [hupd, getSparse_setSparse], rfl, rfl, rfl⟩
  · intro ev inputs identifier element hstart hfound
    rw [bundleUpdateInput]
    obtain ⟨o, ho⟩ := Option.isSome_iff_exists.mp hfound
    rw [ho]
    simp only [if_pos hstart]
  · intro ev inputs identifier element hstart hnone
    rw [bundleUpdateInput, hnone]
    simp only [if_pos hstart]

/-- C8 (amended): a Move or End event whose identifier has no tracked
Input never updates or creates an Input; the bundled v1.0.5 resets the
region's whole input set, while updateInput of src/core/State.js silently
ignores the event and leaves the input set unchanged; both functions are
total, so no error is propagated. -/
theorem untracked_move_end_handling {α : Type} [LinearOrderedField α] :
    (∀ (ev : RawEvent α) (inputs : List (Input α)) (identifier : ℕ)
        (element : Rect α),
      (normalizeEvent ev.etype = some Phase.move
        ∨ normalizeEvent ev.etype = some Phase.ended) →
      inputs.find? (fun inp => decide (inp.identifier = identifier)) = none →
        bundleUpdateInput ev inputs identifier element = [])
    ∧ (∀ (ev : RawEvent α) (identifier : ℕ)
          (inputs : List (Option (Input α))),
      (normalizeEvent ev.etype = some Phase.move
        ∨ normalizeEvent ev.etype = some Phase.ended) →
      getSparse inputs identifier = none →
        stateUpdateInput ev identifier inputs = inputs) := by
  constructor
  · intro ev inputs identifier element hphase hnone
    have hns : ¬ normalizeEvent ev.etype = some Phase.start := by
      rcases hphase with h | h <;> simp [h]
    rw [bundleUpdateInput, hnone]
    simp only [if_neg hns]
  · intro ev identifier inputs hphase hnone
    have hns : ¬ normalizeEvent ev.etype = some Phase.start := by
      rcases hphase with h | h <;> simp [h]
    rw [stateUpdateInput, if_neg hns, hnone]

/-- A concrete mousedown at the origin. -/
def rawStart : RawEvent ℚ :=
  ⟨EvType.mousedown, 0, 0⟩

/-- A concrete mousemove at (1, 1). -/
def rawMove : RawEvent ℚ :=
  ⟨EvType.mousemove, 1, 1⟩

/-- A concrete mouseup at (2, 2). -/
def rawEnd : RawEvent ℚ :=
  ⟨EvType.mouseup, 2, 2⟩

/-- A tracked Input for identifier 0 whose current event has the end
phase. -/
def endedTrackedInput : Input ℚ :=
  ⟨⟨some Phase.start, 0, 0⟩, ⟨some Phase.ended, 2, 2⟩, ⟨some Phase.move, 1, 1⟩, 0⟩

/-- An arbitrary element rectangle. -/
def anyRect : Rect ℚ :=
  ⟨0, 0, 100, 100⟩

/-- C7 counterexample: in the bundled update, a Start event for
identifier 0 - which currently holds an End-phase Input - resets the
input set to empty instead of installing a fresh Input for the
identifier, so no input at all tracks identifier 0 afterwards. -/
theorem bundle_start_resets_instead_of_replacing :
    endedTrackedInput.currentPhase = some Phase.ended
      ∧ bundleUpdateInput rawStart [endedTrackedInput] 0 anyRect = []
      ∧ (bundleUpdateInput rawStart [endedTrackedInput] 0 anyRect).find?
          (fun inp => decide (inp.identifier = 0)) = none :=
  ⟨rfl, rfl, rfl⟩

/-- C7 witness: the three clauses of the amended theorem applied to
concrete events - a Start over the empty sparse array installs the fresh
Input in State.js, a Start over a one-element bundle state holding
identifier 0 resets it, and a Start over the empty bundle state appends
the fresh Input. -/
theorem start_replaces_or_resets_witness :
    (normalizeEvent (rawStart).etype = some Phase.start
        ∧ (stateUpdateInput rawStart 0 ([] : List (Option (Input ℚ))) =
              setSparse [] 0 (some (Input.fresh rawStart 0))
            ∧ getSparse (stateUpdateInput rawStart 0 ([] : List (Option (Input ℚ)))) 0 =
                some (Input.fresh rawStart 0)
            ∧ (Input.fresh rawStart 0).initial = ZEvent.ofRaw rawStart
            ∧ (Input.fresh rawStart 0).current = ZEvent.ofRaw rawStart
            ∧ (Input.fresh rawStart 0).previous = ZEvent.ofRaw rawStart))
      ∧ (([endedTrackedInput].find? (fun inp => decide (inp.identifier = 0))).isSome
          ∧ bundleUpdateInput rawStart [endedTrackedInput] 0 anyRect = [])
      ∧ (([] : List (Input ℚ)).find? (fun inp => decide (inp.identifier = 0)) = none
          ∧ bundleUpdateInput rawStart ([] : List (Input ℚ)) 0 anyRect =
              [] ++ [Input.fresh rawStart 0]) :=
  ⟨⟨rfl, (start_replaces_or_resets (α := ℚ)).1 rawStart 0 [] rfl⟩,
   ⟨rfl, (start_replaces_or_resets (α := ℚ)).2.1 rawStart [endedTrackedInput] 0
      anyRect rfl rfl⟩,
   ⟨rfl, (start_replaces_or_resets (α := ℚ)).2.2 rawStart [] 0 anyRect rfl rfl⟩⟩

/-- C8 counterexample: updateInput of src/core/State.js, given a Move
event for the untracked identifier 1 while identifier 0 is tracked,
leaves the input set unchanged and nonempty - the region state is not
reset as the claim demands. -/
theorem state_untracked_move_is_silent :
    stateUpdateInput rawMove 1 [some endedTrackedInput] = [some endedTrackedInput]
      ∧ ([some endedTrackedInput] : List (Option (Input ℚ))) ≠ [] :=
  ⟨rfl, by simp⟩

/-- C8 witness: the two clauses of the amended theorem applied to
concrete events - a Move for an untracked identifier resets the bundle
state, and an End for an untracked identifier leaves the State.js sparse
array unchanged. -/
theorem untracked_move_end_handling_witness :
    ((normalizeEvent (rawMove).etype = some Phase.move
        ∨ normalizeEvent (rawMove).etype = some Phase.ended)
      ∧ ([endedTrackedInput].find? (fun inp => decide (inp.identifier = 1))) = none
      ∧ bundleUpdateInput rawMove [endedTrackedInput] 1 anyRect = [])
    ∧ ((normalizeEvent (rawEnd).etype = some Phase.move
        ∨ normalizeEvent (rawEnd).etype = some Phase.ended)
      ∧ getSparse ([] : List (Option (Input ℚ))) 0 = none
      ∧ stateUpdateInput rawEnd 0 ([] : List (Option (Input ℚ))) = []) :=
  ⟨⟨Or.inl rfl, rfl,
    (untracked_move_end_handling (α := ℚ)).1 rawMove [endedTrackedInput] 1 anyRect
      (Or.inl rfl) rfl⟩,
   ⟨Or.inr rfl, rfl,
    (untracked_move_end_handling (α := ℚ)).2 rawEnd 0 [] (Or.inr rfl) rfl⟩⟩

/-- C1 witness: the characterization applied to a concrete propagation
path [5, 3, 7] (target 5 first, so deeper elements have smaller indices)
and three candidates, two of them for gesture kind 1: the forwarded
winner for kind 1 is the candidate bound to element 3, the deeper of the
two. -/
theorem arbiter_one_innermost_winner_witness :
    arbiterResolve [5, 3, 7] [⟨1, 7, 0⟩, ⟨1, 3, 1⟩, ⟨2, 9, 2⟩] 1 =
        firstMinBy (fun c => getPathIndex [5, 3, 7] c.element)
          (([⟨1, 7, 0⟩, ⟨1, 3, 1⟩, ⟨2, 9, 2⟩] : List DispatchCandidate).filter
            (fun c => decide (c.gestureId = 1)))
      ∧ arbiterResolve [5, 3, 7] [⟨1, 7, 0⟩, ⟨1, 3, 1⟩, ⟨2, 9, 2⟩] 1 =
          some ⟨1, 3, 1⟩ :=
  ⟨(arbiter_one_innermost_winner [5, 3, 7] [⟨1, 7, 0⟩, ⟨1, 3, 1⟩, ⟨2, 9, 2⟩] 1).1,
   by decide⟩
